import Mathlib

/-!
# easy_profiler: the blocks graphics view

A shallow embedding of `profiler_gui/blocks_graphics_view.h`: the time to position transform of
`ProfGraphicsView`, the selection zone `ProfChronometerItem`, and the per-level item storage of
`ProfGraphicsItem`.

Numeric conventions of the embedding:
* `qreal` (a C++ `double`) is embedded as an exact rational number: every finite double is a
  rational, and rounding, infinities and NaN are outside the embedding;
* `profiler::timestamp_t` is embedded as a natural number below `TIMESTAMP_RANGE`, with
  wrap-around subtraction;
* the function-like macros `PROF_MICROSECONDS` and `PROF_FROM_MICROSECONDS` come from
  `common_types.h`, which is not part of this header; they are taken to be functions of
  their argument alone and are arguments of the functions that expand them.

Member functions that the header only declares are embedded from their documentation and
from the specification of the view; the comment of each such definition says so.
-/

namespace EasyProfiler

/-! ## ProfGraphicsView: time and position -/

/-- Number of values of `profiler::timestamp_t`. The typedef is declared by the profiler core
headers, not by this header; it is taken to be an unsigned 64-bit integer. -/
def TIMESTAMP_RANGE : Nat := 2 ^ 64

/-- The expression `_a - _b` on two `profiler::timestamp_t` values (unsigned, wraps around). -/
def timestampSub (_a _b : Nat) : Nat :=
  (_a % TIMESTAMP_RANGE + (TIMESTAMP_RANGE - _b % TIMESTAMP_RANGE)) % TIMESTAMP_RANGE

/-- Conversion of a `qreal` to `profiler::timestamp_t`: the fractional part is discarded, and
the conversion is defined only when the truncated value is a timestamp. -/
def toTimestamp (_value : ℚ) : Option Nat :=
  if -1 < _value ∧ _value < (TIMESTAMP_RANGE : ℚ) then some (Int.toNat ⌊_value⌋) else none

/-- The members of `ProfGraphicsView` that hold the state of the transform and of the
interaction (the Qt widgets, the timer and the item arrays are left out). -/
structure ProfGraphicsView where
  /-- Begin time of profiler session. -/
  m_beginTime : Nat
  /-- Current scale. -/
  m_scale : ℚ
  /-- Manual offset of all scene content. -/
  m_offset : ℚ
  /-- Current flicking speed. -/
  m_flickerSpeed : Int
  m_bUpdatingRect : Bool
  m_bTest : Bool
  m_bEmpty : Bool
  m_bStrictSelection : Bool

namespace ProfGraphicsView

/-- `ProfGraphicsView::scale`. -/
def scale (v : ProfGraphicsView) : ℚ := v.m_scale

/-- `ProfGraphicsView::offset`. -/
def offset (v : ProfGraphicsView) : ℚ := v.m_offset

/-- `ProfGraphicsView::time2position`:
`return PROF_MICROSECONDS(qreal(_time - m_beginTime));` -/
def time2position (PROF_MICROSECONDS : ℚ → ℚ) (v : ProfGraphicsView) (_time : Nat) : ℚ :=
  PROF_MICROSECONDS ((timestampSub _time v.m_beginTime : Nat) : ℚ)

/-- `ProfGraphicsView::position2time`: `return PROF_FROM_MICROSECONDS(_pos);`, the value
being converted to the return type `profiler::timestamp_t`. The view state is not read. -/
def position2time (PROF_FROM_MICROSECONDS : ℚ → ℚ) (_v : ProfGraphicsView) (_pos : ℚ) :
    Option Nat :=
  toTimestamp (PROF_FROM_MICROSECONDS _pos)

/-- The same view state in a session that begins at time 0. -/
def sessionAtZero (v : ProfGraphicsView) : ProfGraphicsView :=
  { v with m_beginTime := 0 }

/-- `ProfGraphicsView::to_microseconds`. -/
def to_microseconds (_v : ProfGraphicsView) (_value : ℚ) : ℚ := _value

/-- `ProfGraphicsView::to_milliseconds`. -/
def to_milliseconds (_v : ProfGraphicsView) (_value : ℚ) : ℚ := _value * 1000

end ProfGraphicsView

/-! ## ProfChronometerItem: the selection zone -/

/-- The bounds of `ProfChronometerItem` (the font and the bounding rectangle are left out). -/
structure ProfChronometerItem where
  /-- Left bound of the selection zone. -/
  m_left : ℚ
  /-- Right bound of the selection zone. -/
  m_right : ℚ

namespace ProfChronometerItem

/-- `ProfChronometerItem::left`. -/
def left (c : ProfChronometerItem) : ℚ := c.m_left

/-- `ProfChronometerItem::right`. -/
def right (c : ProfChronometerItem) : ℚ := c.m_right

/-- `ProfChronometerItem::width`: `return m_right - m_left;` -/
def width (c : ProfChronometerItem) : ℚ := c.m_right - c.m_left

end ProfChronometerItem

/-! ## The block tree and the items drawn for it -/

/-- Modelled from the spec: `BlocksTree` is declared in `profiler/reader.h`, which is not part
of the sources. A node is a read-only record of a begin time, an end time, a color and its
ordered children (section 6 of the specification). -/
inductive BlocksTree where
  | node (begin_time : Nat) (end_time : Nat) (color : Nat) (children : List BlocksTree) :
      BlocksTree
  deriving Repr

namespace BlocksTree

/-- Begin time of the block. -/
def getBegin : BlocksTree → Nat
  | node b _ _ _ => b

/-- End time of the block. -/
def getEnd : BlocksTree → Nat
  | node _ e _ _ => e

/-- Color of the block. -/
def getColor : BlocksTree → Nat
  | node _ _ c _ => c

/-- Ordered children of the block. -/
def children : BlocksTree → List BlocksTree
  | node _ _ _ cs => cs

mutual
/-- Number of levels a block and its descendants occupy. -/
def depth : BlocksTree → Nat
  | node _ _ _ cs => depthList cs + 1
/-- Number of levels a list of sibling blocks and their descendants occupy. -/
def depthList : List BlocksTree → Nat
  | [] => 0
  | c :: cs => max (depth c) (depthList cs)
end

mutual
/-- Aggregate height of a block in rows: one more than the tallest of its children. -/
def totalHeight : BlocksTree → Nat
  | node _ _ _ cs => totalHeightList cs + 1
/-- Height of the tallest block of a list of siblings. -/
def totalHeightList : List BlocksTree → Nat
  | [] => 0
  | c :: cs => max (totalHeight c) (totalHeightList cs)
end

end BlocksTree

/-- Modelled from the spec: `TreeBlocks` is declared in `common_types.h`, which is not part of
the sources. It is the ordered collection of selected blocks, each paired with the identifier
of its thread (section 4.3). -/
abbrev TreeBlocks := List (Nat × BlocksTree)

/-- Number of values of `unsigned int`, the type of `ProfBlockItem::children_begin`. -/
def UINT_RANGE : Nat := 2 ^ 32

/-- Number of values of `unsigned short`, the type of level indexes and of `totalHeight`. -/
def USHORT_RANGE : Nat := 2 ^ 16

/-- The record `ProfBlockItem`. The pointer `block` is embedded as the block it points to. -/
structure ProfBlockItem where
  /-- Pointer to profiler block. -/
  block : BlocksTree
  /-- x coordinate of the item. -/
  x : ℚ
  /-- Width of the item. -/
  w : ℚ
  /-- y coordinate of the item. -/
  y : ℚ
  /-- Height of the item. -/
  h : ℚ
  /-- Background color of the item. -/
  color : Nat
  /-- Index of first child item on the next sublevel. -/
  children_begin : Nat
  /-- Total height of the item including heights of all its children. -/
  totalHeight : Nat
  /-- 0 = no change, 1 = paint, -1 = do not paint. -/
  state : Int

namespace ProfBlockItem

/-- Modelled from the spec: `ProfBlockItem::left` is only declared in the header; `x` is the
left coordinate of the item. -/
def left (b : ProfBlockItem) : ℚ := b.x

/-- Modelled from the spec: `ProfBlockItem::width` is only declared in the header. -/
def width (b : ProfBlockItem) : ℚ := b.w

/-- Modelled from the spec: `ProfBlockItem::right` is only declared in the header; the right
edge is the left coordinate plus the width. -/
def right (b : ProfBlockItem) : ℚ := b.x + b.w

/-- Modelled from the spec: `ProfBlockItem::top` is only declared in the header. -/
def top (b : ProfBlockItem) : ℚ := b.y

/-- Modelled from the spec: `ProfBlockItem::height` is only declared in the header. -/
def height (b : ProfBlockItem) : ℚ := b.h

/-- Modelled from the spec: `ProfBlockItem::bottom` is only declared in the header. -/
def bottom (b : ProfBlockItem) : ℚ := b.y + b.h

/-- Modelled from the spec: `ProfBlockItem::setRect` is only declared in the header; it
stores the four coordinates. -/
def setRect (b : ProfBlockItem) (_x _y _w _h : ℚ) : ProfBlockItem :=
  { b with x := _x, y := _y, w := _w, h := _h }

end ProfBlockItem

/-! ## ProfGraphicsItem: the per-level item arrays -/

/-- The members of `ProfGraphicsItem` (the bounding rectangle is left out). -/
structure ProfGraphicsItem where
  /-- Indexes of first item on each level from which we must start painting. -/
  m_levelsIndexes : List Nat
  /-- Arrays of items for each level. -/
  m_levels : List (List ProfBlockItem)
  /-- Pointer to the root profiler block. -/
  m_pRoot : Option BlocksTree
  /-- Thread id to which this item belongs. -/
  m_thread_id : Nat
  /-- Background color. -/
  m_backgroundColor : Nat
  /-- If true then we are running test(). -/
  m_bTest : Bool

/-- The effect of `std::vector::resize`: keep the first `n` entries, pad with `d`. -/
def vectorResize {α : Type} (xs : List α) (n : Nat) (d : α) : List α :=
  xs.take n ++ List.replicate (n - xs.length) d

namespace ProfGraphicsItem

/-- Modelled from the spec: the constructor `ProfGraphicsItem(_thread_id, _root)` is only
declared in the header; a new item has no levels. -/
def create (_thread_id : Nat) (_root : BlocksTree) : ProfGraphicsItem :=
  { m_levelsIndexes := [], m_levels := [], m_pRoot := some _root, m_thread_id := _thread_id,
    m_backgroundColor := 0, m_bTest := false }

/-- Modelled from the spec: `ProfGraphicsItem::levels` is only declared in the header; it
returns the number of levels as an `unsigned short`. -/
def levels (g : ProfGraphicsItem) : Nat := g.m_levels.length % USHORT_RANGE

/-- Modelled from the spec: `ProfGraphicsItem::setLevels` is only declared in the header; it
sets the number of levels (an `unsigned short`), new levels being empty. -/
def setLevels (g : ProfGraphicsItem) (_levels : Nat) : ProfGraphicsItem :=
  { g with
    m_levels := vectorResize g.m_levels (_levels % USHORT_RANGE) [],
    m_levelsIndexes := vectorResize g.m_levelsIndexes (_levels % USHORT_RANGE) 0 }

/-- Modelled from the spec: `ProfGraphicsItem::items` is only declared in the header; it
returns the array of items of a level, and a level beyond the built range is a violated
precondition (section 7). -/
def items (g : ProfGraphicsItem) (_level : Nat) : Option (List ProfBlockItem) :=
  g.m_levels[_level]?

/-- Modelled from the spec: `ProfGraphicsItem::getItem` is only declared in the header; it
returns the item with the required index on the specified level, and an index beyond the
built range is a violated precondition (section 7). -/
def getItem (g : ProfGraphicsItem) (_level : Nat) (_index : Nat) : Option ProfBlockItem :=
  match g.m_levels[_level]? with
  | none => none
  | some lvl => lvl[_index]?

/-- Modelled from the spec: `ProfGraphicsItem::addItem(_level, _item)` is only declared in
the header; it appends a copy of `_item` to the level and returns the index of the newly
created item. -/
def addItem (g : ProfGraphicsItem) (_level : Nat) (_item : ProfBlockItem) :
    Option (Nat × ProfGraphicsItem) :=
  match g.m_levels[_level]? with
  | none => none
  | some lvl => some (lvl.length, { g with m_levels := g.m_levels.set _level (lvl ++ [_item]) })

/-- Number of items on a level; a level that does not exist holds none. -/
def levelSize (g : ProfGraphicsItem) (_level : Nat) : Nat :=
  (g.m_levels.getD _level []).length

/-- Whether the horizontal extent of an item meets the selection zone `[_left, _right]`. -/
def intersects (_left _right : ℚ) (b : ProfBlockItem) : Bool :=
  decide (b.left ≤ _right) && decide (_left ≤ b.right)

/-- One step of the loop of `getBlocks`: an item that meets the zone is appended. -/
def getBlocksStep (_thread_id : Nat) (_left _right : ℚ) (_blocks : TreeBlocks)
    (b : ProfBlockItem) : TreeBlocks :=
  if intersects _left _right b then _blocks ++ [(_thread_id, b.block)] else _blocks

/-- Modelled from the spec: `ProfGraphicsItem::getBlocks` is only declared in the header; it
finds the top-level blocks which intersect the selection zone and adds them to the array of
selected blocks; there is no result when the item has no level 0. -/
def getBlocks (g : ProfGraphicsItem) (_left _right : ℚ) (_blocks : TreeBlocks) :
    Option TreeBlocks :=
  match g.items 0 with
  | none => none
  | some level0 => some (level0.foldl (getBlocksStep g.m_thread_id _left _right) _blocks)

/-! ### The visibility walk of `paint` -/

/-- Binary search (`std::lower_bound`) over the indexes `[first, first + count)` for the
first index at which `before` is false. -/
def lowerBound (before : Nat → Bool) (first count : Nat) : Nat :=
  if h : count = 0 then first
  else
    let step := count / 2
    if before (first + step) then lowerBound before (first + step + 1) (count - (step + 1))
    else lowerBound before first step
termination_by count
decreasing_by
  all_goals simp_wf
  all_goals omega

/-- Whether the item with index `k` lies entirely before the left bound. -/
def endsBefore (level : List ProfBlockItem) (_left : ℚ) (k : Nat) : Bool :=
  match level[k]? with
  | none => false
  | some b => decide (b.right < _left)

/-- Index of the first item to paint on a level: the first item whose right edge is at least
the left bound, found by binary search. -/
def firstToPaint (level : List ProfBlockItem) (_left : ℚ) : Nat :=
  lowerBound (endsBefore level _left) 0 level.length

/-- The forward scan: the indexes of the items that are visited starting at index `i`, until
an item's left edge exceeds the right bound. -/
def scanLevel (_right : ℚ) : List ProfBlockItem → Nat → List Nat
  | [], _ => []
  | b :: rest, i => if _right < b.left then [] else i :: scanLevel _right rest (i + 1)

/-- The items of one level selected for the visible window `[_left, _right]`. -/
def visibleRun (level : List ProfBlockItem) (_left _right : ℚ) : List Nat :=
  scanLevel _right (level.drop (firstToPaint level _left)) (firstToPaint level _left)

/-- Modelled from the spec: `ProfGraphicsItem::paint` is only declared in the header; this is
its visibility walk (section 4.2) for the visible window `[_left, _right]`: per level the
index of the first item to paint is stored in `m_levelsIndexes` and the items from there up
to the first one whose left edge exceeds the right bound are selected. Drawing, and the
grouping of narrow neighbours into one draw call, are left out. -/
def paint (g : ProfGraphicsItem) (_left _right : ℚ) : ProfGraphicsItem × List (List Nat) :=
  ({ g with m_levelsIndexes := g.m_levels.map (fun level => firstToPaint level _left) },
   g.m_levels.map (fun level => visibleRun level _left _right))

end ProfGraphicsItem

/-! ## ProfGraphicsView::setTree: building the levels from a block tree -/

namespace ProfGraphicsView

/-- The item `setTree` creates for the block `child` on row `_y`: x is `time2position` of the
begin time, the width is floored at `MIN_WIDTH`, `children_begin` is the current size of the
next level (an `unsigned int`), the total height is one more than the tallest child (an
`unsigned short`), and the paint state is unset. -/
def layoutItem (PROF_MICROSECONDS : ℚ → ℚ) (v : ProfGraphicsView) (MIN_WIDTH ROW_SIZE : ℚ)
    (_item : ProfGraphicsItem) (child : BlocksTree) (_y : ℚ) (next_level : Nat) :
    ProfBlockItem :=
  { block := child
    x := v.time2position PROF_MICROSECONDS child.getBegin
    w := max (v.time2position PROF_MICROSECONDS child.getEnd -
      v.time2position PROF_MICROSECONDS child.getBegin) MIN_WIDTH
    y := _y
    h := ROW_SIZE
    color := child.getColor
    children_begin := _item.levelSize next_level % UINT_RANGE
    totalHeight := child.totalHeight % USHORT_RANGE
    state := 0 }

mutual
/-- The body of the loop of `setTree` for one child block: its item is added to the level,
with `children_begin` the current size of the next level, then its children are laid out
on the next level, one row further down. -/
def setTreeNode (PROF_MICROSECONDS : ℚ → ℚ) (v : ProfGraphicsView) (MIN_WIDTH ROW_SIZE : ℚ) :
    ProfGraphicsItem → BlocksTree → ℚ → Nat → Option ProfGraphicsItem
  | _item, BlocksTree.node b e c cs, _y, _level =>
    match _item.addItem _level
      (layoutItem PROF_MICROSECONDS v MIN_WIDTH ROW_SIZE _item (BlocksTree.node b e c cs) _y
        ((_level + 1) % USHORT_RANGE)) with
    | none => none
    | some (_, item1) =>
      setTree PROF_MICROSECONDS v MIN_WIDTH ROW_SIZE item1 cs (_y + ROW_SIZE)
        ((_level + 1) % USHORT_RANGE)
/-- Modelled from the spec: the private `ProfGraphicsView::setTree(_item, _children, _height,
_y, _level)` is only declared in the header. Section 4.1: a depth-first traversal in which
level `_level` receives one item per block of `_children`, in order, and the next level
receives the items of their children as contiguous runs that `children_begin` points to.
The minimum width and the row size are not given by the specification and are arguments;
the returned duration and the `_height` output are left out. There is no result when a
level beyond the built range would be written. -/
def setTree (PROF_MICROSECONDS : ℚ → ℚ) (v : ProfGraphicsView) (MIN_WIDTH ROW_SIZE : ℚ) :
    ProfGraphicsItem → List BlocksTree → ℚ → Nat → Option ProfGraphicsItem
  | _item, [], _, _ => some _item
  | _item, child :: rest, _y, _level =>
    match setTreeNode PROF_MICROSECONDS v MIN_WIDTH ROW_SIZE _item child _y _level with
    | none => none
    | some item1 => setTree PROF_MICROSECONDS v MIN_WIDTH ROW_SIZE item1 rest _y _level
end

/-- Modelled from the spec: the public `ProfGraphicsView::setTree` is only declared in the
header; for one thread it creates the item, sets its number of levels to the depth of the
block tree and lays the tree out with the root on level 0 (section 4.1). -/
def buildItem (PROF_MICROSECONDS : ℚ → ℚ) (v : ProfGraphicsView) (MIN_WIDTH ROW_SIZE : ℚ)
    (_thread_id : Nat) (_root : BlocksTree) : Option ProfGraphicsItem :=
  setTree PROF_MICROSECONDS v MIN_WIDTH ROW_SIZE
    ((ProfGraphicsItem.create _thread_id _root).setLevels _root.depth) [_root] 0 0

end ProfGraphicsView

/-! ## Concrete states used by the examples -/

/-- A view whose session begins at time 0, at scale 1 with no offset. -/
def viewAtZero : ProfGraphicsView :=
  { m_beginTime := 0, m_scale := 1, m_offset := 0, m_flickerSpeed := 0,
    m_bUpdatingRect := false, m_bTest := false, m_bEmpty := false,
    m_bStrictSelection := false }

/-- A view whose session begins at time 0, at scale 2 with offset 10. -/
def viewZoomed : ProfGraphicsView :=
  { viewAtZero with m_scale := 2, m_offset := 10 }

/-- A view whose session begins at time 1. -/
def viewAtOne : ProfGraphicsView :=
  { viewAtZero with m_beginTime := 1 }

/-- A view whose session begins at time 1000. -/
def viewAtThousand : ProfGraphicsView :=
  { viewAtZero with m_beginTime := 1000 }

/-- Nanoseconds to microseconds, a possible expansion of `PROF_MICROSECONDS`. -/
def nsToMicroseconds (x : ℚ) : ℚ := x / 1000

/-- Microseconds to nanoseconds, a possible expansion of `PROF_FROM_MICROSECONDS`. -/
def microsecondsToNs (x : ℚ) : ℚ := x * 1000

/-- The number of times `n` can be halved before it is below 2, that is the position of its
highest bit; `fuel` bounds the number of halvings and `n` itself is always enough. -/
def halvings : Nat → Nat → Nat
  | 0, _ => 0
  | fuel + 1, n => if n < 2 then 0 else halvings fuel (n / 2) + 1

/-- The double nearest to a rational number, ties going to the even mantissa: the result of
one operation of IEEE 754 binary64 arithmetic whose exact value is `x`, for values in the
normal range (no overflow, no subnormal numbers). The mantissa `m` has 53 bits and the
result is `m / 2 ^ s`. -/
def roundToDouble (x : ℚ) : ℚ :=
  if x = 0 then 0
  else
    let n := x.num.natAbs
    let d := x.den
    let l : Int := (halvings n n : Int) - (halvings d d : Int)
    let e : Int := if d * 2 ^ l.toNat ≤ n * 2 ^ (-l).toNat then l else l - 1
    let s : Int := 52 - e
    let N := n * 2 ^ s.toNat
    let D := d * 2 ^ (-s).toNat
    let q := N / D
    let r := N % D
    let m := if D < 2 * r ∨ (2 * r = D ∧ q % 2 = 1) then q + 1 else q
    mkRat (x.num.sign * (m * 2 ^ (-s).toNat : Nat)) (2 ^ s.toNat)

/-- Nanoseconds to microseconds in double arithmetic, `(x) * 1e-3`: a possible expansion of
`PROF_MICROSECONDS` in which the constant and the product are rounded to doubles. -/
def nsToMicrosecondsDouble (x : ℚ) : ℚ := roundToDouble (x * roundToDouble (1 / 1000))

/-- Microseconds to nanoseconds in double arithmetic, `(x) * 1e3`: a possible expansion of
`PROF_FROM_MICROSECONDS` in which the product is rounded to a double. -/
def microsecondsToNsDouble (x : ℚ) : ℚ := roundToDouble (x * 1000)

/-- An item standing for `b` at `[x, x + w]`, on the first row. -/
def itemAt (b : BlocksTree) (x w : ℚ) : ProfBlockItem :=
  { block := b, x := x, w := w, y := 0, h := 1, color := 0, children_begin := 0,
    totalHeight := 1, state := 0 }

/-- A block spanning `[0, 400]`. -/
def blockA : BlocksTree := BlocksTree.node 0 400 0 []

/-- A block spanning `[500, 1000]`. -/
def blockB : BlocksTree := BlocksTree.node 500 1000 0 []

/-- An item of thread 7 whose level 0 holds `blockA` and `blockB`. -/
def twoBlocksItem : ProfGraphicsItem :=
  { m_levelsIndexes := [0], m_levels := [[itemAt blockA 0 400, itemAt blockB 500 500]],
    m_pRoot := none, m_thread_id := 7, m_backgroundColor := 0, m_bTest := false }

/-- A block spanning `[1200, 1500]`. -/
def blockC : BlocksTree := BlocksTree.node 1200 1500 0 []

/-- An item of thread 7 whose level 0 holds `blockA`, `blockB` and `blockC`. -/
def threeBlocksItem : ProfGraphicsItem :=
  { m_levelsIndexes := [0],
    m_levels := [[itemAt blockA 0 400, itemAt blockB 500 500, itemAt blockC 1200 300]],
    m_pRoot := none, m_thread_id := 7, m_backgroundColor := 0, m_bTest := false }

/-- Four blocks of width 5 starting at 0, 10, 20 and 30. -/
def fourBlocksLevel : List ProfBlockItem :=
  [itemAt blockA 0 5, itemAt blockA 10 5, itemAt blockA 20 5, itemAt blockA 30 5]

/-- An item of thread 7 whose level 0 is `fourBlocksLevel`. -/
def fourBlocksItem : ProfGraphicsItem :=
  { m_levelsIndexes := [0], m_levels := [fourBlocksLevel],
    m_pRoot := none, m_thread_id := 7, m_backgroundColor := 0, m_bTest := false }

/-! ## Predicates of the statements -/

/-- The blocks of a level are evenly spaced in ascending x order: the block with index `k`
starts at `x0 + k * pitch`, with `pitch > 0`, and all blocks have the same width. -/
def EvenlySpaced (level : List ProfBlockItem) (x0 pitch width : ℚ) : Prop :=
  0 < pitch ∧ ∀ (k : Nat) (b : ProfBlockItem), level[k]? = some b →
    b.x = x0 + (k : ℚ) * pitch ∧ b.w = width

/-- The window `[_left, _right]` covers exactly the blocks with indexes `i..j`: the extent of
a block meets the window if and only if its index lies in `i..j`. -/
def CoversExactly (level : List ProfBlockItem) (_left _right : ℚ) (i j : Nat) : Prop :=
  i ≤ j ∧ j < level.length ∧ ∀ (k : Nat) (b : ProfBlockItem), level[k]? = some b →
    ((_left ≤ b.right ∧ b.left ≤ _right) ↔ (i ≤ k ∧ k ≤ j))

/-- The item store `g'` extends `g` from level `level` on: the number of levels is the same,
every item of `g` is still in its place, no level shrinks, the levels above `level` are
untouched and level `level` holds `n` more items. -/
def Extends (g g' : ProfGraphicsItem) (level n : Nat) : Prop :=
  g'.m_levels.length = g.m_levels.length ∧
  (∀ L, g.levelSize L ≤ g'.levelSize L) ∧
  (∀ L, L < level → g'.levelSize L = g.levelSize L) ∧
  g'.levelSize level = g.levelSize level + n ∧
  (∀ L i b, g.getItem L i = some b → g'.getItem L i = some b)

/-- The children of item `b` of level `L` are an in-bounds run of level `L + 1`:
`children_begin` plus the child count of the source block is at most the size of level
`L + 1`. -/
def ChildrenInBounds (g : ProfGraphicsItem) (L : Nat) (b : ProfBlockItem) : Prop :=
  b.children_begin + b.block.children.length ≤ g.levelSize (L + 1)

/-- Every item of `g'` is an item of `g` or has its children in bounds. -/
def NewItemsInBounds (g g' : ProfGraphicsItem) : Prop :=
  ∀ L i b, g'.getItem L i = some b → g.getItem L i = some b ∨ ChildrenInBounds g' L b

/-- A block tree of three levels: a root spanning `[0, 1000]`, its children spanning
`[0, 400]` and `[500, 1000]`, and one grandchild under each child. -/
def sampleTree : BlocksTree :=
  BlocksTree.node 0 1000 0
    [BlocksTree.node 0 400 0 [BlocksTree.node 100 200 0 []],
     BlocksTree.node 500 1000 0 [BlocksTree.node 600 700 0 []]]

/-- An item of thread 7 with two levels: `blockA` on level 0 and nothing on level 1. -/
def twoLevelsItem : ProfGraphicsItem :=
  { m_levelsIndexes := [0, 0], m_levels := [[itemAt blockA 0 400], []],
    m_pRoot := none, m_thread_id := 7, m_backgroundColor := 0, m_bTest := false }

/-! ## Auxiliary facts about timestamps -/

theorem timestampSub_of_le {a b : Nat} (hab : b ≤ a) (ha : a < TIMESTAMP_RANGE) :
    timestampSub a b = a - b := by
  have hb : b < TIMESTAMP_RANGE := lt_of_le_of_lt hab ha
  unfold timestampSub
  rw [Nat.mod_eq_of_lt ha, Nat.mod_eq_of_lt hb]
  have h1 : a + (TIMESTAMP_RANGE - b) = (a - b) + TIMESTAMP_RANGE := by omega
  rw [h1, Nat.add_mod_right]
  exact Nat.mod_eq_of_lt (by omega)

theorem toTimestamp_natCast {n : Nat} (hn : n < TIMESTAMP_RANGE) :
    toTimestamp (n : ℚ) = some n := by
  unfold toTimestamp
  have h1 : (-1 : ℚ) < (n : ℚ) := by
    have : (0 : ℚ) ≤ (n : ℚ) := Nat.cast_nonneg n
    linarith
  have h2 : (n : ℚ) < (TIMESTAMP_RANGE : ℚ) := by exact_mod_cast hn
  rw [if_pos ⟨h1, h2⟩]
  simp


/-- The conversion to a timestamp of a value whose integer part, computed from its numerator
and denominator, is a timestamp. -/
theorem toTimestamp_of_floor {x : ℚ} {n : Nat} (hfloor : x.num / (x.den : Int) = (n : Int))
    (hn : n < TIMESTAMP_RANGE) : toTimestamp x = some n := by
  have hf : ⌊x⌋ = (n : Int) := by
    rw [Rat.floor_def]
    exact hfloor
  obtain ⟨hlo, hhi⟩ := Int.floor_eq_iff.mp hf
  have hlo' : (n : ℚ) ≤ x := by exact_mod_cast hlo
  have hhi' : x < (n : ℚ) + 1 := by exact_mod_cast hhi
  have hn' : (n : ℚ) + 1 ≤ (TIMESTAMP_RANGE : ℚ) := by exact_mod_cast hn
  have h0 : (0 : ℚ) ≤ (n : ℚ) := Nat.cast_nonneg n
  unfold toTimestamp
  rw [if_pos ⟨by linarith, by linarith⟩, hf]
  simp

/-! ## The selection zone -/

/-- C9: for every state of the chronometer, `width()` equals `right() - left()`; hence
`width()` is non-negative exactly when `left() <= right()`, and negative exactly when the
stored bounds are reversed. -/
theorem chronometer_width_eq_right_sub_left (c : ProfChronometerItem) :
    c.width = c.right - c.left ∧ (0 ≤ c.width ↔ c.left ≤ c.right) ∧
      (c.width < 0 ↔ c.right < c.left) := by
  refine ⟨rfl, ?_, ?_⟩
  · unfold ProfChronometerItem.width ProfChronometerItem.left ProfChronometerItem.right
    exact sub_nonneg
  · unfold ProfChronometerItem.width ProfChronometerItem.left ProfChronometerItem.right
    exact sub_neg

/-! ## The time to position transform -/

/-- C8: `time2position(t)` depends only on `t` and the session begin time: two view states
with the same begin time give the same position for every timestamp, whatever their scale
and offset are. -/
theorem time2position_eq_of_beginTime_eq (PROF_MICROSECONDS : ℚ → ℚ)
    (v₁ v₂ : ProfGraphicsView) (hbegin : v₁.m_beginTime = v₂.m_beginTime) (t : Nat) :
    v₁.time2position PROF_MICROSECONDS t = v₂.time2position PROF_MICROSECONDS t := by
  unfold ProfGraphicsView.time2position
  rw [hbegin]

/-- Two views with the same begin time and different scale and offset: same positions. -/
theorem time2position_eq_of_beginTime_eq_witness :
    viewAtZero.m_beginTime = viewZoomed.m_beginTime ∧
      viewAtZero.m_scale ≠ viewZoomed.m_scale ∧ viewAtZero.m_offset ≠ viewZoomed.m_offset ∧
      viewAtZero.time2position nsToMicroseconds 5000 =
        viewZoomed.time2position nsToMicroseconds 5000 :=
  ⟨rfl, by norm_num [viewAtZero, viewZoomed], by norm_num [viewAtZero, viewZoomed],
    time2position_eq_of_beginTime_eq nsToMicroseconds viewAtZero viewZoomed rfl 5000⟩

/-- C2, as stated, fails: whatever `PROF_MICROSECONDS` expands to, `time2position(5)` cannot
equal `(5 - begin) * scale - offset` both in the view with begin 0, scale 1, offset 0 and in
the view with begin 0, scale 2, offset 10, because it is the same number in both. -/
theorem time2position_not_scale_offset :
    ¬ ∃ PROF_MICROSECONDS : ℚ → ℚ,
      viewAtZero.time2position PROF_MICROSECONDS 5 =
          ((5 : ℚ) - viewAtZero.m_beginTime) * viewAtZero.m_scale - viewAtZero.m_offset ∧
        viewZoomed.time2position PROF_MICROSECONDS 5 =
          ((5 : ℚ) - viewZoomed.m_beginTime) * viewZoomed.m_scale - viewZoomed.m_offset := by
  rintro ⟨M, h₁, h₂⟩
  have h : viewAtZero.time2position M 5 = viewZoomed.time2position M 5 := rfl
  rw [h₁, h₂] at h
  norm_num [viewAtZero, viewZoomed] at h

/-- C2, amended: for every view state and every timestamp `t` not before the session begin
time, `time2position(t)` is `PROF_MICROSECONDS` applied to `t - sessionBeginTime`; the
scale and the offset of the view do not enter. -/
theorem time2position_eq_macro_of_elapsed (PROF_MICROSECONDS : ℚ → ℚ) (v : ProfGraphicsView)
    (t : Nat) (hbegin : v.m_beginTime ≤ t) (ht : t < TIMESTAMP_RANGE) :
    v.time2position PROF_MICROSECONDS t = PROF_MICROSECONDS ((t : ℚ) - (v.m_beginTime : ℚ)) := by
  unfold ProfGraphicsView.time2position
  rw [timestampSub_of_le hbegin ht, Nat.cast_sub hbegin]

/-- At begin time 1000 the position of timestamp 5000 is the conversion of 4000. -/
theorem time2position_eq_macro_of_elapsed_witness :
    viewAtThousand.m_beginTime ≤ 5000 ∧ 5000 < TIMESTAMP_RANGE ∧
      viewAtThousand.time2position nsToMicroseconds 5000 =
        nsToMicroseconds (((5000 : Nat) : ℚ) - (viewAtThousand.m_beginTime : ℚ)) :=
  ⟨by decide, by decide,
    time2position_eq_macro_of_elapsed nsToMicroseconds viewAtThousand 5000 (by decide)
      (by decide)⟩

/-- C1, as stated, fails: whatever the two macros expand to, the round trip cannot return
timestamp 1 in the view with begin time 0 and timestamp 2 in the view with begin time 1,
because `position2time` does not add the session begin time back. -/
theorem position2time_time2position_not_id :
    ¬ ∃ (PROF_MICROSECONDS PROF_FROM_MICROSECONDS : ℚ → ℚ),
      viewAtZero.position2time PROF_FROM_MICROSECONDS
          (viewAtZero.time2position PROF_MICROSECONDS 1) = some 1 ∧
        viewAtOne.position2time PROF_FROM_MICROSECONDS
          (viewAtOne.time2position PROF_MICROSECONDS 2) = some 2 := by
  rintro ⟨M, F, h₁, h₂⟩
  have e₁ : timestampSub 1 viewAtZero.m_beginTime = 1 := by decide
  have e₂ : timestampSub 2 viewAtOne.m_beginTime = 1 := by decide
  unfold ProfGraphicsView.position2time ProfGraphicsView.time2position at h₁ h₂
  rw [e₁] at h₁
  rw [e₂, h₁] at h₂
  exact absurd h₂ (by decide)

/-- C1, amended: for every view state and every timestamp `t` within the session's time
range, whatever the two macros expand to, `position2time(time2position(t))` is the round
trip of the elapsed time `t - sessionBeginTime`: it equals what the same view returns for
`t - sessionBeginTime` when its session begins at 0, because `position2time` does not add
the begin time back. So where that round trip is exact the result is `t - sessionBeginTime`,
and then it is `t` itself exactly when the session begin time is 0. -/
theorem position2time_time2position_eq_elapsed
    (PROF_MICROSECONDS PROF_FROM_MICROSECONDS : ℚ → ℚ)
    (v : ProfGraphicsView) (t : Nat) (hbegin : v.m_beginTime ≤ t) (ht : t < TIMESTAMP_RANGE) :
    v.position2time PROF_FROM_MICROSECONDS (v.time2position PROF_MICROSECONDS t) =
        v.sessionAtZero.position2time PROF_FROM_MICROSECONDS
          (v.sessionAtZero.time2position PROF_MICROSECONDS (t - v.m_beginTime)) ∧
      (v.sessionAtZero.position2time PROF_FROM_MICROSECONDS
          (v.sessionAtZero.time2position PROF_MICROSECONDS (t - v.m_beginTime)) =
            some (t - v.m_beginTime) →
        v.position2time PROF_FROM_MICROSECONDS (v.time2position PROF_MICROSECONDS t) =
            some (t - v.m_beginTime) ∧
          (v.position2time PROF_FROM_MICROSECONDS (v.time2position PROF_MICROSECONDS t) =
            some t ↔ v.m_beginTime = 0)) := by
  have hsub : t - v.m_beginTime < TIMESTAMP_RANGE := lt_of_le_of_lt (Nat.sub_le _ _) ht
  have key : v.position2time PROF_FROM_MICROSECONDS (v.time2position PROF_MICROSECONDS t) =
      v.sessionAtZero.position2time PROF_FROM_MICROSECONDS
        (v.sessionAtZero.time2position PROF_MICROSECONDS (t - v.m_beginTime)) := by
    unfold ProfGraphicsView.position2time ProfGraphicsView.time2position
      ProfGraphicsView.sessionAtZero
    rw [timestampSub_of_le hbegin ht, timestampSub_of_le (Nat.zero_le _) hsub, Nat.sub_zero]
  refine ⟨key, fun hexact => ?_⟩
  rw [key, hexact]
  refine ⟨rfl, fun h => ?_, fun h => ?_⟩
  · have h' : t - v.m_beginTime = t := Option.some.inj h
    omega
  · rw [h, Nat.sub_zero]

/-- Begin time 1000, with the macros evaluated in double arithmetic. The round trip of 5007
is that of the elapsed time 4007 in a session beginning at 0, and both give 4006, since
`4007 * 1e-3 * 1e3` is less than 4007 in doubles. The round trip of 5000 is that of 4000,
which is exact, so it returns 4000, the elapsed time, and not 5000. -/
theorem position2time_time2position_eq_elapsed_witness :
    viewAtThousand.m_beginTime ≤ 5007 ∧ 5007 < TIMESTAMP_RANGE ∧
      viewAtThousand.position2time microsecondsToNsDouble
          (viewAtThousand.time2position nsToMicrosecondsDouble 5007) =
        viewAtZero.position2time microsecondsToNsDouble
          (viewAtZero.time2position nsToMicrosecondsDouble 4007) ∧
      viewAtZero.position2time microsecondsToNsDouble
          (viewAtZero.time2position nsToMicrosecondsDouble 4007) = some 4006 ∧
      viewAtThousand.position2time microsecondsToNsDouble
          (viewAtThousand.time2position nsToMicrosecondsDouble 5000) = some 4000 := by
  have e4007 : viewAtZero.position2time microsecondsToNsDouble
      (viewAtZero.time2position nsToMicrosecondsDouble 4007) = some 4006 :=
    toTimestamp_of_floor (by decide!) (by decide)
  have e4000 : viewAtThousand.sessionAtZero.position2time microsecondsToNsDouble
      (viewAtThousand.sessionAtZero.time2position nsToMicrosecondsDouble
        (5000 - viewAtThousand.m_beginTime)) = some (5000 - viewAtThousand.m_beginTime) :=
    toTimestamp_of_floor (by decide!) (by decide)
  exact ⟨by decide, by decide,
    (position2time_time2position_eq_elapsed nsToMicrosecondsDouble microsecondsToNsDouble
      viewAtThousand 5007 (by decide) (by decide)).1,
    e4007,
    ((position2time_time2position_eq_elapsed nsToMicrosecondsDouble microsecondsToNsDouble
      viewAtThousand 5000 (by decide) (by decide)).2 e4000).1⟩

/-! ## The per-level item arrays -/

namespace ProfGraphicsItem

theorem levels_le_length (g : ProfGraphicsItem) : g.levels ≤ g.m_levels.length :=
  Nat.mod_le _ _

theorem getBlocks_foldl (tid : Nat) (l r : ℚ) (level : List ProfBlockItem) :
    ∀ blocks : TreeBlocks,
      level.foldl (getBlocksStep tid l r) blocks =
        blocks ++ (level.filter (intersects l r)).map (fun b => (tid, b.block)) := by
  induction level with
  | nil => intro blocks; simp
  | cons b rest ih =>
    intro blocks
    rw [List.foldl_cons, ih]
    unfold getBlocksStep
    by_cases hb : intersects l r b = true
    · simp [hb]
    · simp [hb]

/-- Binary search returns the threshold of a predicate that is true below it and false from
it on. -/
theorem lowerBound_eq_threshold (before : Nat → Bool) :
    ∀ (count first m : Nat), first ≤ m → m ≤ first + count →
      (∀ k, first ≤ k → k < m → before k = true) →
      (∀ k, m ≤ k → k < first + count → before k = false) →
      lowerBound before first count = m := by
  intro count
  induction count using Nat.strong_induction_on with
  | _ count ih =>
    intro first m hfm hmc hlt hge
    rw [lowerBound]
    by_cases hc : count = 0
    · rw [dif_pos hc]; omega
    · rw [dif_neg hc]
      have hstep : count / 2 < count := Nat.div_lt_self (Nat.pos_of_ne_zero hc) (by decide)
      by_cases hb : before (first + count / 2) = true
      · simp only [hb, if_true]
        have hmid : first + count / 2 < m := by
          by_contra hcon
          have := hge (first + count / 2) (by omega) (by omega)
          rw [hb] at this
          exact absurd this (by decide)
        apply ih (count - (count / 2 + 1)) (by omega) _ _ (by omega) (by omega)
        · intro k hk1 hk2; exact hlt k (by omega) hk2
        · intro k hk1 hk2; exact hge k hk1 (by omega)
      · simp only [hb]
        have hmid : m ≤ first + count / 2 := by
          by_contra hcon
          exact hb (hlt (first + count / 2) (by omega) (by omega))
        apply ih (count / 2) hstep _ _ hfm hmid hlt
        intro k hk1 hk2; exact hge k hk1 (by omega)

/-- The scan visits exactly the first `n` items when these start at or before the right
bound and the next one, if any, starts after it. -/
theorem scanLevel_eq_range' (r : ℚ) :
    ∀ (l : List ProfBlockItem) (i n : Nat), n ≤ l.length →
      (∀ k b, k < n → l[k]? = some b → b.left ≤ r) →
      (∀ b, l[n]? = some b → r < b.left) →
      scanLevel r l i = List.range' i n := by
  intro l
  induction l with
  | nil =>
    intro i n hn _ _
    have : n = 0 := by simpa using hn
    subst this
    simp [scanLevel]
  | cons a rest ih =>
    intro i n hn hin hout
    cases n with
    | zero =>
      have : r < a.left := hout a (by simp)
      simp [scanLevel, this]
    | succ n =>
      have ha : a.left ≤ r := hin 0 a (Nat.succ_pos n) (by simp)
      have hrest := ih (i + 1) n (by simpa using hn)
        (fun k b hk hb => hin (k + 1) b (by omega) (by simpa using hb))
        (fun b hb => hout b (by simpa using hb))
      simp [scanLevel, not_lt.mpr ha, hrest, List.range'_succ]

theorem levelSize_eq_of_getElem? {g : ProfGraphicsItem} {L : Nat} {lvl : List ProfBlockItem}
    (h : g.m_levels[L]? = some lvl) : g.levelSize L = lvl.length := by
  unfold levelSize
  rw [List.getD_eq_getElem?_getD, h]
  rfl

theorem extends_refl (g : ProfGraphicsItem) (level : Nat) : Extends g g level 0 :=
  ⟨rfl, fun _ => le_refl _, fun _ _ => rfl, rfl, fun _ _ _ h => h⟩

/-- Laying out more siblings on the same level. -/
theorem extends_trans {g g₁ g₂ : ProfGraphicsItem} {level n m : Nat}
    (h₁ : Extends g g₁ level n) (h₂ : Extends g₁ g₂ level m) : Extends g g₂ level (n + m) := by
  obtain ⟨a₁, b₁, c₁, d₁, e₁⟩ := h₁
  obtain ⟨a₂, b₂, c₂, d₂, e₂⟩ := h₂
  refine ⟨a₂.trans a₁, fun L => le_trans (b₁ L) (b₂ L), fun L hL => ?_, ?_,
    fun L i b h => e₂ L i b (e₁ L i b h)⟩
  · rw [c₂ L hL, c₁ L hL]
  · rw [d₂, d₁]; omega

/-- Laying out the children of the items of a level leaves the level itself as it is. -/
theorem extends_below {g g₁ g₂ : ProfGraphicsItem} {level n m : Nat}
    (h₁ : Extends g g₁ level n) (h₂ : Extends g₁ g₂ (level + 1) m) : Extends g g₂ level n := by
  obtain ⟨a₁, b₁, c₁, d₁, e₁⟩ := h₁
  obtain ⟨a₂, b₂, c₂, _, e₂⟩ := h₂
  refine ⟨a₂.trans a₁, fun L => le_trans (b₁ L) (b₂ L), fun L hL => ?_, ?_,
    fun L i b h => e₂ L i b (e₁ L i b h)⟩
  · rw [c₂ L (by omega), c₁ L hL]
  · rw [c₂ level (by omega), d₁]

theorem newItemsInBounds_trans {g g₁ g₂ : ProfGraphicsItem} {level m : Nat}
    (h₁ : NewItemsInBounds g g₁) (h₂ : NewItemsInBounds g₁ g₂) (hext : Extends g₁ g₂ level m) :
    NewItemsInBounds g g₂ := by
  intro L i b hb
  rcases h₂ L i b hb with h | h
  · rcases h₁ L i b h with h' | h'
    · exact Or.inl h'
    · right
      unfold ChildrenInBounds at h' ⊢
      exact le_trans h' (hext.2.1 (L + 1))
  · exact Or.inr h

/-- A successful `addItem` wrote to a level that exists. -/
theorem lt_length_of_addItem {g : ProfGraphicsItem} {level : Nat} {item : ProfBlockItem}
    {p : Nat × ProfGraphicsItem} (h : g.addItem level item = some p) :
    level < g.m_levels.length := by
  by_contra hcon
  unfold addItem at h
  rw [List.getElem?_eq_none (by omega)] at h
  exact absurd h (by simp)

/-- What `addItem` does to the arrays, for a level that exists. -/
theorem addItem_some {g : ProfGraphicsItem} {level : Nat} (hlevel : level < g.m_levels.length)
    (item : ProfBlockItem) :
    ∃ g₁ : ProfGraphicsItem, g.addItem level item = some (g.levelSize level, g₁) ∧
      Extends g g₁ level 1 ∧
      (∀ L, L ≠ level → g₁.levelSize L = g.levelSize L) ∧
      (∀ L i b, g₁.getItem L i = some b → g.getItem L i = some b ∨ (L = level ∧ b = item)) := by
  have hget : g.m_levels[level]? = some (g.m_levels[level]) := List.getElem?_eq_getElem hlevel
  have hsize : g.levelSize level = (g.m_levels[level]).length := levelSize_eq_of_getElem? hget
  have hother : ∀ L, L ≠ level →
      (g.m_levels.set level (g.m_levels[level] ++ [item]))[L]? = g.m_levels[L]? :=
    fun L hne => List.getElem?_set_ne (Ne.symm hne)
  have hsame : (g.m_levels.set level (g.m_levels[level] ++ [item]))[level]? =
      some (g.m_levels[level] ++ [item]) := by
    simp [hlevel]
  have hsizes : ∀ L, L ≠ level →
      levelSize { g with m_levels := g.m_levels.set level (g.m_levels[level] ++ [item]) } L =
        g.levelSize L := by
    intro L hne
    unfold levelSize
    simp only [List.getD_eq_getElem?_getD, hother L hne]
  have hsize' :
      levelSize { g with m_levels := g.m_levels.set level (g.m_levels[level] ++ [item]) } level =
        g.levelSize level + 1 := by
    rw [hsize]
    unfold levelSize
    simp only [List.getD_eq_getElem?_getD, hsame, Option.getD_some, List.length_append,
      List.length_singleton]
  refine ⟨{ g with m_levels := g.m_levels.set level (g.m_levels[level] ++ [item]) },
    ?_, ⟨?_, ?_, ?_, hsize', ?_⟩, hsizes, ?_⟩
  · unfold addItem
    rw [hget, hsize]
  · simp
  · intro L
    by_cases hne : L = level
    · subst hne; rw [hsize']; omega
    · rw [hsizes L hne]
  · intro L hL
    exact hsizes L (by omega)
  · intro L i b hb
    unfold getItem at hb ⊢
    by_cases hne : L = level
    · subst hne
      rw [hget] at hb
      simp only at hb
      simp only [hsame]
      have hi : i < (g.m_levels[L]).length := by
        by_contra hcon
        rw [List.getElem?_eq_none (by omega)] at hb
        exact absurd hb (by simp)
      rw [List.getElem?_append_left hi]
      exact hb
    · simp only [hother L hne]
      exact hb
  · intro L i b hb
    unfold getItem at hb ⊢
    by_cases hne : L = level
    · subst hne
      simp only [hsame] at hb
      rw [hget]
      simp only
      by_cases hi : i < (g.m_levels[L]).length
      · rw [List.getElem?_append_left hi] at hb
        exact Or.inl hb
      · right
        refine ⟨trivial, ?_⟩
        rw [List.getElem?_append_right (by omega)] at hb
        have hi0 : i - (g.m_levels[L]).length = 0 := by
          by_contra hcon
          rw [List.getElem?_eq_none (by simp; omega)] at hb
          exact absurd hb (by simp)
        rw [hi0] at hb
        simpa using hb.symm
    · simp only [hother L hne] at hb
      exact Or.inl hb

end ProfGraphicsItem


namespace ProfGraphicsView

mutual
/-- Laying out one block, when it succeeds, adds one item to the level of the block and
leaves every new item with its children in bounds. -/
theorem setTreeNode_extends (M : ℚ → ℚ) (v : ProfGraphicsView) (mw rs : ℚ) :
    ∀ (t : BlocksTree) (g g' : ProfGraphicsItem) (y : ℚ) (level : Nat),
      g.m_levels.length < USHORT_RANGE → setTreeNode M v mw rs g t y level = some g' →
      Extends g g' level 1 ∧ NewItemsInBounds g g'
  | BlocksTree.node b e c cs, g, g', y, level, hshort, hrun => by
    simp only [setTreeNode] at hrun
    cases hadd : g.addItem level
        (layoutItem M v mw rs g (BlocksTree.node b e c cs) y ((level + 1) % USHORT_RANGE)) with
    | none =>
      rw [hadd] at hrun
      exact absurd hrun (by simp)
    | some p =>
      obtain ⟨idx, g₁⟩ := p
      rw [hadd] at hrun
      simp only at hrun
      have hlevel : level < g.m_levels.length := ProfGraphicsItem.lt_length_of_addItem hadd
      have hnext : (level + 1) % USHORT_RANGE = level + 1 := Nat.mod_eq_of_lt (by omega)
      rw [hnext] at hadd hrun
      obtain ⟨g₁', ha, e₁, hs₁, hi₁⟩ := ProfGraphicsItem.addItem_some hlevel
        (layoutItem M v mw rs g (BlocksTree.node b e c cs) y (level + 1))
      have hg₁ : g₁' = g₁ := by
        rw [hadd] at ha
        exact (congrArg Prod.snd (Option.some.inj ha)).symm
      subst hg₁
      obtain ⟨e₂, n₂⟩ := setTree_extends M v mw rs cs g₁' g' (y + rs) (level + 1)
        (by rw [e₁.1]; exact hshort) hrun
      refine ⟨ProfGraphicsItem.extends_below e₁ e₂, ?_⟩
      intro L i item hitem
      rcases n₂ L i item hitem with h | h
      · rcases hi₁ L i item h with h' | ⟨hL, hnew⟩
        · exact Or.inl h'
        · right
          subst hL hnew
          unfold ChildrenInBounds
          have hcb : (layoutItem M v mw rs g (BlocksTree.node b e c cs) y (L + 1)).children_begin
              ≤ g.levelSize (L + 1) := Nat.mod_le _ _
          have hblock : (layoutItem M v mw rs g (BlocksTree.node b e c cs) y
              (L + 1)).block.children = cs := rfl
          have h1 : g₁'.levelSize (L + 1) = g.levelSize (L + 1) := hs₁ (L + 1) (by omega)
          have h2 : g'.levelSize (L + 1) = g₁'.levelSize (L + 1) + cs.length := e₂.2.2.2.1
          rw [hblock, h2, h1]
          omega
      · exact Or.inr h
/-- Laying out a list of siblings, when it succeeds, adds one item per sibling to their
level and leaves every new item with its children in bounds. -/
theorem setTree_extends (M : ℚ → ℚ) (v : ProfGraphicsView) (mw rs : ℚ) :
    ∀ (ts : List BlocksTree) (g g' : ProfGraphicsItem) (y : ℚ) (level : Nat),
      g.m_levels.length < USHORT_RANGE → setTree M v mw rs g ts y level = some g' →
      Extends g g' level ts.length ∧ NewItemsInBounds g g'
  | [], g, g', _, level, _, hrun => by
    simp only [setTree, Option.some.injEq] at hrun
    subst hrun
    exact ⟨ProfGraphicsItem.extends_refl g level, fun _ _ _ h => Or.inl h⟩
  | t :: rest, g, g', y, level, hshort, hrun => by
    simp only [setTree] at hrun
    cases hnode : setTreeNode M v mw rs g t y level with
    | none =>
      rw [hnode] at hrun
      exact absurd hrun (by simp)
    | some g₁ =>
      rw [hnode] at hrun
      simp only at hrun
      obtain ⟨e₁, n₁⟩ := setTreeNode_extends M v mw rs t g g₁ y level hshort hnode
      obtain ⟨e₂, n₂⟩ := setTree_extends M v mw rs rest g₁ g' y level
        (by rw [e₁.1]; exact hshort) hrun
      refine ⟨?_, ProfGraphicsItem.newItemsInBounds_trans n₁ n₂ e₂⟩
      have := ProfGraphicsItem.extends_trans e₁ e₂
      rw [List.length_cons, Nat.add_comm]
      exact this
end

mutual
/-- Laying out one block succeeds when the levels it needs exist. -/
theorem setTreeNode_isSome (M : ℚ → ℚ) (v : ProfGraphicsView) (mw rs : ℚ) :
    ∀ (t : BlocksTree) (g : ProfGraphicsItem) (y : ℚ) (level : Nat),
      level + t.depth ≤ g.m_levels.length → g.m_levels.length < USHORT_RANGE →
      ∃ g' : ProfGraphicsItem, setTreeNode M v mw rs g t y level = some g'
  | BlocksTree.node b e c cs, g, y, level, hdepth, hshort => by
    simp only [BlocksTree.depth] at hdepth
    have hlevel : level < g.m_levels.length := by omega
    have hnext : (level + 1) % USHORT_RANGE = level + 1 := Nat.mod_eq_of_lt (by omega)
    obtain ⟨g₁, ha, e₁, _, _⟩ := ProfGraphicsItem.addItem_some hlevel
      (layoutItem M v mw rs g (BlocksTree.node b e c cs) y (level + 1))
    obtain ⟨g₂, h₂⟩ := setTree_isSome M v mw rs cs g₁ (y + rs) (level + 1)
      (by rw [e₁.1]; omega) (by rw [e₁.1]; exact hshort)
    refine ⟨g₂, ?_⟩
    simp only [setTreeNode, hnext, ha]
    exact h₂
/-- Laying out a list of siblings succeeds when the levels it needs exist. -/
theorem setTree_isSome (M : ℚ → ℚ) (v : ProfGraphicsView) (mw rs : ℚ) :
    ∀ (ts : List BlocksTree) (g : ProfGraphicsItem) (y : ℚ) (level : Nat),
      level + BlocksTree.depthList ts ≤ g.m_levels.length → g.m_levels.length < USHORT_RANGE →
      ∃ g' : ProfGraphicsItem, setTree M v mw rs g ts y level = some g'
  | [], g, _, _, _, _ => ⟨g, by simp only [setTree]⟩
  | t :: rest, g, y, level, hdepth, hshort => by
    simp only [BlocksTree.depthList] at hdepth
    obtain ⟨g₁, h₁⟩ := setTreeNode_isSome M v mw rs t g y level
      (le_trans (Nat.add_le_add_left (le_max_left _ _) level) hdepth) hshort
    have e₁ := (setTreeNode_extends M v mw rs t g g₁ y level hshort h₁).1
    obtain ⟨g₂, h₂⟩ := setTree_isSome M v mw rs rest g₁ y level
      (by rw [e₁.1]; exact le_trans (Nat.add_le_add_left (le_max_right _ _) level) hdepth)
      (by rw [e₁.1]; exact hshort)
    refine ⟨g₂, ?_⟩
    simp only [setTree, h₁]
    exact h₂
end

end ProfGraphicsView

/-- C4: for every level store built by `setTree` from a block tree, and every item at every
level `L`, the item's `children_begin` plus the child count of its source block is at most
the number of items on level `L + 1`. Such a store is built for every tree of fewer than
65536 levels; it has as many levels as the tree is deep and holds the root alone on
level 0. -/
theorem buildItem_children_in_bounds (PROF_MICROSECONDS : ℚ → ℚ) (v : ProfGraphicsView)
    (MIN_WIDTH ROW_SIZE : ℚ) (_thread_id : Nat) (_root : BlocksTree) :
    (∀ g : ProfGraphicsItem,
      v.buildItem PROF_MICROSECONDS MIN_WIDTH ROW_SIZE _thread_id _root = some g →
      ∀ L i b, g.getItem L i = some b →
        b.children_begin + b.block.children.length ≤ g.levelSize (L + 1)) ∧
    (_root.depth < USHORT_RANGE →
      ∃ g : ProfGraphicsItem,
        v.buildItem PROF_MICROSECONDS MIN_WIDTH ROW_SIZE _thread_id _root = some g ∧
        g.levels = _root.depth ∧ g.levelSize 0 = 1) := by
  have hlevels : ((ProfGraphicsItem.create _thread_id _root).setLevels _root.depth).m_levels =
      List.replicate (_root.depth % USHORT_RANGE) [] := by
    simp [ProfGraphicsItem.setLevels, ProfGraphicsItem.create, vectorResize]
  have hlen : ((ProfGraphicsItem.create _thread_id _root).setLevels _root.depth).m_levels.length =
      _root.depth % USHORT_RANGE := by
    rw [hlevels, List.length_replicate]
  have hshort : ((ProfGraphicsItem.create _thread_id _root).setLevels
      _root.depth).m_levels.length < USHORT_RANGE := by
    rw [hlen]
    exact Nat.mod_lt _ (by decide)
  have hempty : ∀ L i b,
      ((ProfGraphicsItem.create _thread_id _root).setLevels _root.depth).getItem L i ≠ some b := by
    intro L i b
    unfold ProfGraphicsItem.getItem
    rw [hlevels]
    by_cases hL : L < _root.depth % USHORT_RANGE
    · simp [List.getElem?_replicate, hL]
    · simp [List.getElem?_replicate, hL]
  have hsize0 : ((ProfGraphicsItem.create _thread_id _root).setLevels _root.depth).levelSize 0
      = 0 := by
    unfold ProfGraphicsItem.levelSize
    rw [hlevels]
    cases _root.depth % USHORT_RANGE <;> simp [List.replicate]
  constructor
  · intro g hg L i b hb
    obtain ⟨_, hnew⟩ := ProfGraphicsView.setTree_extends PROF_MICROSECONDS v MIN_WIDTH ROW_SIZE
      [_root] _ g 0 0 hshort hg
    rcases hnew L i b hb with h | h
    · exact absurd h (hempty L i b)
    · exact h
  · intro hdepth
    have hmod : _root.depth % USHORT_RANGE = _root.depth := Nat.mod_eq_of_lt hdepth
    obtain ⟨g, hg⟩ := ProfGraphicsView.setTree_isSome PROF_MICROSECONDS v MIN_WIDTH ROW_SIZE
      [_root] ((ProfGraphicsItem.create _thread_id _root).setLevels _root.depth) 0 0
      (by simp [BlocksTree.depthList, hlen, hmod]) hshort
    obtain ⟨hext, _⟩ := ProfGraphicsView.setTree_extends PROF_MICROSECONDS v MIN_WIDTH ROW_SIZE
      [_root] _ g 0 0 hshort hg
    refine ⟨g, hg, ?_, ?_⟩
    · unfold ProfGraphicsItem.levels
      rw [hext.1, hlen, hmod, hmod]
    · rw [hext.2.2.2.1, hsize0]
      rfl

/-- The three-level sample tree: a store is built for it, the bound holds in that store, and
its `children_begin` values are 0 for the root, 0 and 1 for the children and 0 for the
leaves. -/
theorem buildItem_children_in_bounds_witness :
    (∀ g : ProfGraphicsItem, viewAtZero.buildItem nsToMicroseconds 1 1 7 sampleTree = some g →
      ∀ L i b, g.getItem L i = some b →
        b.children_begin + b.block.children.length ≤ g.levelSize (L + 1)) ∧
      (∃ g : ProfGraphicsItem, viewAtZero.buildItem nsToMicroseconds 1 1 7 sampleTree = some g ∧
        g.levels = sampleTree.depth ∧ g.levelSize 0 = 1) ∧
      (viewAtZero.buildItem nsToMicroseconds 1 1 7 sampleTree).map
          (fun g => g.m_levels.map (fun lvl => lvl.map (fun b => b.children_begin))) =
        some [[0], [0, 1], [0, 0]] :=
  ⟨(buildItem_children_in_bounds nsToMicroseconds viewAtZero 1 1 7 sampleTree).1,
    (buildItem_children_in_bounds nsToMicroseconds viewAtZero 1 1 7 sampleTree).2 (by decide),
    by decide⟩

/-- C5: for every `ProfGraphicsItem`, every level index `L < levels()` and every item value,
`addItem(L, item)` returns the number of items on level `L` before the call as the index of
the new item; afterwards `getItem(L, index)` is `item`, level `L` holds one more item, the
earlier items of level `L` and all other levels are unchanged, and so is the number of
levels. -/
theorem addItem_returns_new_index (g : ProfGraphicsItem) (L : Nat) (item : ProfBlockItem)
    (hL : L < g.levels) :
    ∃ g' : ProfGraphicsItem,
      g.addItem L item = some (g.levelSize L, g') ∧
      g'.getItem L (g.levelSize L) = some item ∧
      g'.levelSize L = g.levelSize L + 1 ∧
      (∀ i, i < g.levelSize L → g'.getItem L i = g.getItem L i) ∧
      (∀ L', L' ≠ L → g'.items L' = g.items L') ∧
      g'.levels = g.levels := by
  have hlen : L < g.m_levels.length := lt_of_lt_of_le hL g.levels_le_length
  have hget : g.m_levels[L]? = some (g.m_levels[L]) := List.getElem?_eq_getElem hlen
  have hsize : g.levelSize L = (g.m_levels[L]).length :=
    ProfGraphicsItem.levelSize_eq_of_getElem? hget
  refine ⟨{ g with m_levels := g.m_levels.set L (g.m_levels[L] ++ [item]) },
    ?_, ?_, ?_, ?_, ?_, ?_⟩
  · unfold ProfGraphicsItem.addItem
    rw [hget, hsize]
  · unfold ProfGraphicsItem.getItem
    simp [hlen, hsize]
  · unfold ProfGraphicsItem.levelSize
    simp [hlen, List.getD_eq_getElem?_getD]
  · intro i hi
    unfold ProfGraphicsItem.getItem
    rw [hsize] at hi
    simp [hlen, hget, List.getElem?_append_left hi]
  · intro L' hne
    unfold ProfGraphicsItem.items
    simp [List.getElem?_set_ne (Ne.symm hne)]
  · unfold ProfGraphicsItem.levels
    simp

/-- Adding `blockB` to level 1 of an item with two levels: the index returned is 0, the
item is stored there, and level 0 is as before. -/
theorem addItem_returns_new_index_witness :
    1 < twoLevelsItem.levels ∧
      ∃ g' : ProfGraphicsItem,
        twoLevelsItem.addItem 1 (itemAt blockB 500 500) = some (twoLevelsItem.levelSize 1, g') ∧
        g'.getItem 1 (twoLevelsItem.levelSize 1) = some (itemAt blockB 500 500) ∧
        g'.levelSize 1 = twoLevelsItem.levelSize 1 + 1 ∧
        (∀ i, i < twoLevelsItem.levelSize 1 → g'.getItem 1 i = twoLevelsItem.getItem 1 i) ∧
        (∀ L', L' ≠ 1 → g'.items L' = twoLevelsItem.items L') ∧
        g'.levels = twoLevelsItem.levels :=
  ⟨by decide, addItem_returns_new_index twoLevelsItem 1 (itemAt blockB 500 500) (by decide)⟩

/-- C3: for every `ProfGraphicsItem` with a level 0 and every selection zone `[l, r]` with
`l <= r`, `getBlocks(l, r, blocks)` returns `blocks` followed by the blocks of exactly those
level-0 items with `left() <= r` and `l <= right()`, each once and in level order, paired
with the thread id; for an item with `left() <= right()` that test says that the extent
`[left(), right()]` and the zone `[l, r]` have a point in common. -/
theorem getBlocks_appends_intersecting (g : ProfGraphicsItem) (l r : ℚ) (blocks : TreeBlocks)
    (h0 : 0 < g.levels) (hlr : l ≤ r) :
    g.getBlocks l r blocks =
        some (blocks ++ ((g.m_levels.getD 0 []).filter
          (fun b => decide (b.left ≤ r ∧ l ≤ b.right))).map
            (fun b => (g.m_thread_id, b.block))) ∧
      ∀ b : ProfBlockItem, b.left ≤ b.right →
        ((b.left ≤ r ∧ l ≤ b.right) ↔ ∃ p : ℚ, b.left ≤ p ∧ p ≤ b.right ∧ l ≤ p ∧ p ≤ r) := by
  have hlen : 0 < g.m_levels.length := lt_of_lt_of_le h0 g.levels_le_length
  have hget : g.m_levels[0]? = some (g.m_levels[0]) := List.getElem?_eq_getElem hlen
  have htest : ProfGraphicsItem.intersects l r =
      fun b => decide (b.left ≤ r ∧ l ≤ b.right) := by
    funext b
    unfold ProfGraphicsItem.intersects
    rw [Bool.decide_and]
  constructor
  · unfold ProfGraphicsItem.getBlocks ProfGraphicsItem.items
    rw [hget]
    simp only [List.getD_eq_getElem?_getD, hget, Option.getD_some]
    rw [ProfGraphicsItem.getBlocks_foldl, htest]
  · intro b hb
    constructor
    · rintro ⟨h1, h2⟩
      refine ⟨max b.left l, le_max_left _ _, max_le hb h2, le_max_right _ _, max_le h1 hlr⟩
    · rintro ⟨p, h1, h2, h3, h4⟩
      exact ⟨le_trans h1 h4, le_trans h3 h2⟩

/-- The zone `[450, 600]`. With top-level blocks spanning `[0, 400]` and `[500, 1000]` the
second block only is added. With a third block spanning `[1200, 1500]`, right of the zone,
and one entry already selected, the entry is kept and again only the second block is
added. -/
theorem getBlocks_appends_intersecting_witness :
    0 < twoBlocksItem.levels ∧ (450 : ℚ) ≤ 600 ∧
      twoBlocksItem.getBlocks 450 600 [] = some [(7, blockB)] ∧
      threeBlocksItem.getBlocks 450 600 [(3, blockC)] = some [(3, blockC), (7, blockB)] :=
  ⟨by decide, by norm_num,
    (getBlocks_appends_intersecting twoBlocksItem 450 600 [] (by decide) (by norm_num)).1.trans
      (by
        norm_num [twoBlocksItem, itemAt, ProfBlockItem.left, ProfBlockItem.right, List.filter]),
    (getBlocks_appends_intersecting threeBlocksItem 450 600 [(3, blockC)] (by decide)
      (by norm_num)).1.trans
      (by
        norm_num [threeBlocksItem, itemAt, ProfBlockItem.left, ProfBlockItem.right,
          List.filter])⟩

namespace ProfGraphicsItem

/-- In an evenly spaced level, a later block starts and ends after an earlier one. -/
theorem evenlySpaced_lt_of_lt {level : List ProfBlockItem} {x0 pitch width : ℚ}
    (hev : EvenlySpaced level x0 pitch width) {k₁ k₂ : Nat} {b₁ b₂ : ProfBlockItem}
    (h₁ : level[k₁]? = some b₁) (h₂ : level[k₂]? = some b₂) (hk : k₁ < k₂) :
    b₁.left < b₂.left ∧ b₁.right < b₂.right := by
  obtain ⟨hp, hall⟩ := hev
  obtain ⟨hx₁, hw₁⟩ := hall k₁ b₁ h₁
  obtain ⟨hx₂, hw₂⟩ := hall k₂ b₂ h₂
  have hcast : (k₁ : ℚ) < (k₂ : ℚ) := by exact_mod_cast hk
  have hmul : (k₁ : ℚ) * pitch < (k₂ : ℚ) * pitch := mul_lt_mul_of_pos_right hcast hp
  unfold ProfBlockItem.left ProfBlockItem.right
  rw [hx₁, hx₂, hw₁, hw₂]
  constructor <;> linarith

end ProfGraphicsItem

/-- C6: for every level whose blocks are evenly spaced in ascending x order and every visible
window `[left, right]` that covers exactly the blocks with indexes `i..j`, the visibility
walk of `paint` selects exactly the run `i..j` of that level and stores `i` as the index to
start painting from: `i` is the first item whose right edge is at least `left`, and the
item after `j`, if any, is the first whose left edge exceeds `right`. -/
theorem paint_selects_covered_run (g : ProfGraphicsItem) (L : Nat) (level : List ProfBlockItem)
    (x0 pitch width _left _right : ℚ) (i j : Nat)
    (hL : g.items L = some level) (hev : EvenlySpaced level x0 pitch width)
    (hcov : CoversExactly level _left _right i j) :
    (g.paint _left _right).2[L]? = some (List.range' i (j - i + 1)) ∧
      (g.paint _left _right).1.m_levelsIndexes[L]? = some i ∧
      (∀ k b, level[k]? = some b → k < i → b.right < _left) ∧
      (∀ b, level[i]? = some b → _left ≤ b.right) ∧
      (∀ k b, level[k]? = some b → i ≤ k → k ≤ j → b.left ≤ _right) ∧
      (∀ b, level[j + 1]? = some b → _right < b.left) := by
  obtain ⟨hij, hjN, hiff⟩ := hcov
  have hiN : i < level.length := lt_of_le_of_lt hij hjN
  have hgi : level[i]? = some level[i] := List.getElem?_eq_getElem hiN
  have hgj : level[j]? = some level[j] := List.getElem?_eq_getElem hjN
  have hci := (hiff i _ hgi).mpr ⟨le_refl i, hij⟩
  have hcj := (hiff j _ hgj).mpr ⟨hij, le_refl j⟩
  -- the three zones of the level
  have hA : ∀ k b, level[k]? = some b → k < i → b.right < _left := by
    intro k b hb hk
    have hlt := ProfGraphicsItem.evenlySpaced_lt_of_lt hev hb hgi hk
    by_contra hcon
    have := (hiff k b hb).mp ⟨not_lt.mp hcon, le_of_lt (lt_of_lt_of_le hlt.1 hci.2)⟩
    omega
  have hB : ∀ k b, level[k]? = some b → i ≤ k → k ≤ j → _left ≤ b.right ∧ b.left ≤ _right :=
    fun k b hb h1 h2 => (hiff k b hb).mpr ⟨h1, h2⟩
  have hC : ∀ k b, level[k]? = some b → j < k → _left ≤ b.right ∧ _right < b.left := by
    intro k b hb hk
    have hlt := ProfGraphicsItem.evenlySpaced_lt_of_lt hev hgj hb hk
    have hl : _left ≤ b.right := le_of_lt (lt_of_le_of_lt hcj.1 hlt.2)
    refine ⟨hl, ?_⟩
    by_contra hcon
    have := (hiff k b hb).mp ⟨hl, not_lt.mp hcon⟩
    omega
  -- the binary search stops at `i`
  have hfirst : ProfGraphicsItem.firstToPaint level _left = i := by
    unfold ProfGraphicsItem.firstToPaint
    apply ProfGraphicsItem.lowerBound_eq_threshold _ _ _ _ (Nat.zero_le i) (by omega)
    · intro k _ hk
      have hkN : k < level.length := lt_trans hk hiN
      have hgk : level[k]? = some level[k] := List.getElem?_eq_getElem hkN
      unfold ProfGraphicsItem.endsBefore
      rw [hgk]
      exact decide_eq_true (hA k _ hgk hk)
    · intro k hk hkN
      have hkN' : k < level.length := by omega
      have hgk : level[k]? = some level[k] := List.getElem?_eq_getElem hkN'
      unfold ProfGraphicsItem.endsBefore
      rw [hgk]
      apply decide_eq_false
      rw [not_lt]
      by_cases hkj : k ≤ j
      · exact (hB k _ hgk hk hkj).1
      · exact (hC k _ hgk (by omega)).1
  -- the scan visits `i..j`
  have hrun : ProfGraphicsItem.visibleRun level _left _right = List.range' i (j - i + 1) := by
    unfold ProfGraphicsItem.visibleRun
    rw [hfirst]
    apply ProfGraphicsItem.scanLevel_eq_range'
    · rw [List.length_drop]; omega
    · intro k b hk hb
      rw [List.getElem?_drop] at hb
      exact (hB (i + k) b hb (by omega) (by omega)).2
    · intro b hb
      rw [List.getElem?_drop] at hb
      exact (hC (i + (j - i + 1)) b hb (by omega)).2
  have hLget : g.m_levels[L]? = some level := hL
  refine ⟨?_, ?_, hA, ?_, ?_, ?_⟩
  · unfold ProfGraphicsItem.paint
    simp only [List.getElem?_map, hLget, Option.map_some', hrun]
  · unfold ProfGraphicsItem.paint
    simp only [List.getElem?_map, hLget, Option.map_some', hfirst]
  · intro b hb
    exact (hB i b hb (le_refl i) hij).1
  · intro k b hb h1 h2
    exact (hB k b hb h1 h2).2
  · intro b hb
    exact (hC (j + 1) b hb (by omega)).2

/-- Four blocks of width 5 at 0, 10, 20, 30 and the window `[12, 27]`: the walk selects
the blocks 1 and 2 and starts painting at index 1. -/
theorem paint_selects_covered_run_witness :
    fourBlocksItem.items 0 = some fourBlocksLevel ∧ EvenlySpaced fourBlocksLevel 0 10 5 ∧
      CoversExactly fourBlocksLevel 12 27 1 2 ∧
      (fourBlocksItem.paint 12 27).2[0]? = some [1, 2] ∧
      (fourBlocksItem.paint 12 27).1.m_levelsIndexes[0]? = some 1 := by
  have hev : EvenlySpaced fourBlocksLevel 0 10 5 := by
    refine ⟨by norm_num, ?_⟩
    intro k b hb
    match k, hb with
    | 0, hb => simp [fourBlocksLevel, itemAt] at hb; subst hb; norm_num
    | 1, hb => simp [fourBlocksLevel, itemAt] at hb; subst hb; norm_num
    | 2, hb => simp [fourBlocksLevel, itemAt] at hb; subst hb; norm_num
    | 3, hb => simp [fourBlocksLevel, itemAt] at hb; subst hb; norm_num
    | k + 4, hb => simp [fourBlocksLevel] at hb
  have hcov : CoversExactly fourBlocksLevel 12 27 1 2 := by
    refine ⟨by decide, by decide, ?_⟩
    intro k b hb
    match k, hb with
    | 0, hb =>
      simp [fourBlocksLevel, itemAt] at hb; subst hb
      norm_num [ProfBlockItem.left, ProfBlockItem.right]
    | 1, hb =>
      simp [fourBlocksLevel, itemAt] at hb; subst hb
      norm_num [ProfBlockItem.left, ProfBlockItem.right]
    | 2, hb =>
      simp [fourBlocksLevel, itemAt] at hb; subst hb
      norm_num [ProfBlockItem.left, ProfBlockItem.right]
    | 3, hb =>
      simp [fourBlocksLevel, itemAt] at hb; subst hb
      norm_num [ProfBlockItem.left, ProfBlockItem.right]
    | k + 4, hb => simp [fourBlocksLevel] at hb
  have h := paint_selects_covered_run fourBlocksItem 0 fourBlocksLevel 0 10 5 12 27 1 2 rfl
    hev hcov
  exact ⟨rfl, hev, hcov, h.1, h.2.1⟩

end EasyProfiler
